/-
Verification of run_config_yml_on_circle_ci.py, a script that triggers a
CircleCI build from a local config file.  The script is embedded shallowly:
the regular-expression URL parsing is modelled by an explicit backtracking
matcher with Python semantics (the dot matches any character except a line
break, the dollar anchor matches at the end of the string or just before a
final line break, quantifiers are greedy with backtracking), and the main
procedure is modelled as a pure function from an environment record, holding
the observable results of the external collaborators (git, the circleci
validator, the file system, the HTTP library), to a trace of events and an
outcome.
-/
import Mathlib

/-- Splits a character list at the first occurrence of a character: returns
the part before the first occurrence and the part after it.  This embeds a
regex fragment of the form "one or more characters other than c, then the
literal c": the greedy class cannot contain c, so its only possible stop is
the first occurrence of c, and no backtracking alternative exists. -/
def splitAtFirst (c : Char) : List Char → Option (List Char × List Char)
| [] => none
| x :: rest =>
  if x = c then some ([], rest)
  else
    match splitAtFirst c rest with
    | some (l, r) => some (x :: l, r)
    | none => none

/-- Python dollar anchor without MULTILINE: it matches at the end of the
string, or just before a line break that ends the string. -/
def dollarAnchor : List Char → Bool
| [] => true
| [c] => c == '\n'
| _ => false

/-- Embeds the regex fragment consisting of an optional literal t followed by
the dollar anchor, as in the tail of the URL pattern.  The quantifier is
greedy: consuming the t is tried first, leaving it unconsumed second. -/
def tOptDollar : List Char → Bool
| t :: rest2 => (t == 't' && dollarAnchor rest2) || dollarAnchor (t :: rest2)
| [] => dollarAnchor []

/-- Embeds the regex fragment that follows the repo-name capture in the URL
pattern of parse_url_to_remote_info: a dot (any character except a line
break), the literals g and i, an optional literal t, then the dollar anchor.
Note that in the source pattern the dot is unescaped and the question mark
binds only to the final t. -/
def matchSuffixAt : List Char → Bool
| x :: g :: i :: rest =>
  (x != '\n') && (g == 'g') && (i == 'i') && tOptDollar rest
| _ => false

/-- Embeds a greedy one-or-more quantifier over a character class cls,
followed by a rest-of-pattern test k: the class consumes as many characters
as possible and backtracks one character at a time until k accepts the
remainder.  The accumulator holds the consumed characters in reverse. -/
def plusAux (cls : Char → Bool) (k : List Char → Bool) (acc : List Char) :
    List Char → Option (List Char)
| [] => if k [] then some acc.reverse else none
| c :: rest =>
  if cls c then
    match plusAux cls k (c :: acc) rest with
    | some r => some r
    | none => if k (c :: rest) then some acc.reverse else none
  else
    if k (c :: rest) then some acc.reverse else none

/-- Entry point of the greedy one-or-more matcher: at least one character of
the class is required. -/
def plusMatch (cls : Char → Bool) (k : List Char → Bool) :
    List Char → Option (List Char)
| [] => none
| c :: rest => if cls c then plusAux cls k [c] rest else none

/-- The repo-name capture of the URL pattern: a greedy dot-plus (any
character except a line break, one or more times) followed by the
unescaped-dot g i optional-t dollar tail. -/
def repoTail : List Char → Option (List Char) :=
  plusMatch (fun c => c != '\n') matchSuffixAt

/-- The part of the URL pattern after the optional user group: a non-empty
colon-free hostname capture, a colon, a non-empty slash-free organization
capture, a slash, and the repo-name capture with its tail. -/
def hostOrgRepo (s : List Char) : Option (List Char × List Char × List Char) :=
  match splitAtFirst ':' s with
  | none => none
  | some (host, rest1) =>
    if host.isEmpty then none
    else
      match splitAtFirst '/' rest1 with
      | none => none
      | some (org, rest2) =>
        if org.isEmpty then none
        else
          match repoTail rest2 with
          | none => none
          | some repo => some (host, org, repo)

/-- The full URL pattern of parse_url_to_remote_info, anchored at the start:
an optional group of a non-empty at-sign-free user capture followed by an at
sign, then hostname, colon, organization, slash, repo-name and tail.  The
optional group is greedy: the match with the user group is tried first, and
on failure of the remainder the match without the group is tried.  The user
class cannot contain the at sign, so inside the group the only possible stop
is the first at sign of the string. -/
def urlMatch (s : List Char) : Option (List Char × List Char × List Char) :=
  match splitAtFirst '@' s with
  | some (user, rest) =>
    if user.isEmpty then hostOrgRepo s
    else
      match hostOrgRepo rest with
      | some g => some g
      | none => hostOrgRepo s
  | none => hostOrgRepo s

/-- The record returned by parse_url_to_remote_info. -/
structure RemoteInfo where
  service : String
  organization : String
  repo_name : String
deriving DecidableEq

/-- Failure taxonomy of the script.  Python raises a plain Exception for the
two parse failures, CalledProcessError for a failing external process,
JSONDecodeError for an unparseable HTTP response body, HTTPError from
raise_for_status, and KeyError or TypeError from the final dictionary
lookup; the constructors keep those cases apart. -/
inductive ScriptError where
| processError (msg : String)
| parseError (msg : String)
| jsonError (msg : String)
| httpError (status : Nat)
| keyError (key : String)
| typeError (msg : String)
deriving DecidableEq

/-- Embeds parse_url_to_remote_info: match the URL against the pattern; if
there is no match or the hostname capture differs from github.com, raise;
otherwise return the record with the fixed service string github and the
organization and repo-name captures. -/
def parse_url_to_remote_info (url : String) : Except ScriptError RemoteInfo :=
  match urlMatch url.toList with
  | none => .error (.parseError ("Could not parse remote URL " ++ url))
  | some (host, org, repo) =>
    if host ≠ "github.com".toList then
      .error (.parseError ("Could not parse remote URL " ++ url))
    else
      .ok ⟨"github", String.mk org, String.mk repo⟩

example : parse_url_to_remote_info "git@github.com:acme/widgets.git"
    = .ok ⟨"github", "acme", "widgets"⟩ := by rfl

example : parse_url_to_remote_info "git@github.com:org/repo"
    = .error (.parseError "Could not parse remote URL git@github.com:org/repo") := by rfl

example : parse_url_to_remote_info "git@gitlab.com:a/b.git"
    = .error (.parseError "Could not parse remote URL git@gitlab.com:a/b.git") := by rfl

example : parse_url_to_remote_info "git@github.com:org/repoXgi"
    = .ok ⟨"github", "org", "repo"⟩ := by rfl

example : urlMatch ("a:b@c/d.git".toList)
    = some ("a".toList, "b@c".toList, "d".toList) := by rfl

/-- The tail of the remote-tracking-branch pattern: a greedy one-or-more of
slash-free characters followed by the dollar anchor. -/
def branchTail : List Char → Option (List Char) :=
  plusMatch (fun c => c != '/') dollarAnchor

/-- Embeds the remote-tracking-branch pattern used in main: a non-empty
slash-free remote-name capture, a slash, and a non-empty slash-free branch
name ending at the dollar anchor. -/
def branchMatch (s : List Char) : Option (List Char × List Char) :=
  match splitAtFirst '/' s with
  | none => none
  | some (name, rest) =>
    if name.isEmpty then none
    else
      match branchTail rest with
      | none => none
      | some b => some (name, b)

/-- A JSON value as delivered by the HTTP library when the response body
parses: the shapes relevant to the script are objects and strings. -/
inductive Json where
| str (s : String)
| num (n : Int)
| null
| obj (fields : List (String × Json))

/-- Embeds the Python dictionary subscript on the decoded response: a lookup
in an object raises KeyError when the key is absent, and subscripting a
non-object by a string raises TypeError. -/
def jsonLookup (j : Json) (key : String) : Except ScriptError Json :=
  match j with
  | .obj fields =>
    match fields.find? (fun kv => kv.1 == key) with
    | some kv => .ok kv.2
    | none => .error (.keyError key)
  | _ => .error (.typeError "value is not subscriptable by a string")

/-- Embeds the Python str conversion performed by print on the looked-up
value.  No claim exercises the printing of a non-string value, so the object
case carries a placeholder rather than a full dictionary repr. -/
def pyStr : Json → String
| .str s => s
| .num n => toString n
| .null => "None"
| .obj _ => "dict"

/-- An HTTP response as observed through the HTTP library: the status code
and the result of decoding the body as JSON, with none standing for a body
that is not valid JSON. -/
structure Response where
  status : Nat
  jsonBody : Option Json

/-- The environment of one run of main: the observable results of the
external collaborators.  Fields model, in order, the output of git rev-parse
show-toplevel, the exit code of the circleci validator, the raw bytes of the
config file, the output of git rev-parse for the upstream branch, the output
of git remote get-url push for a given remote name, the output of git
rev-parse HEAD, the token field of the CLI credentials file, and the HTTP
response to the POST. -/
structure Env where
  topDir : String
  validateExitCode : Nat
  configYml : String
  remoteTrackingBranch : String
  remoteUrl : String → String
  currentCommit : String
  authToken : String
  response : Response

/-- The HTTP POST request issued by main, carrying the trigger URL, the
basic-auth pair, and the three form-encoded body fields. -/
structure PostRequest where
  url : String
  authUser : String
  authPass : String
  revision : String
  notify : String
  config : String
deriving DecidableEq

/-- Observable events of a run: the validator invocation, the HTTP POST, and
a line printed to standard output. -/
inductive Event where
| validateRun
| httpPost (req : PostRequest)
| printOut (line : String)
deriving DecidableEq

/-- The outcome of a run: normal return, or an uncaught exception. -/
inductive Outcome where
| ok
| raised (e : ScriptError)
deriving DecidableEq

/-- The process exit status: exit(main()) exits with 0 when main returns,
and the interpreter exits with 1 on an uncaught exception. -/
def exitCode : Outcome → Nat
| .ok => 0
| .raised _ => 1

/-- Embeds main: resolve the repository root, run the validator with
check=True, read the config file, resolve and parse the remote tracking
branch, resolve and parse the remote push URL, resolve the commit and the
token, build the trigger URL, POST, decode the JSON body, raise for a 4xx or
5xx status, and print the build URL. -/
def mainRun (env : Env) : List Event × Outcome :=
  let _top_dir := env.topDir
  if env.validateExitCode != 0 then
    ([.validateRun], .raised (.processError "circleci config validate"))
  else
    let config_yml_string := env.configYml
    let remote_tracking_branch := env.remoteTrackingBranch
    match branchMatch remote_tracking_branch.toList with
    | none =>
      ([.validateRun],
        .raised (.parseError
          ("Cannot parse remote tracking branch " ++ remote_tracking_branch)))
    | some (remote_name, remote_branch_name) =>
      let remote_url := env.remoteUrl (String.mk remote_name)
      match parse_url_to_remote_info remote_url with
      | .error e => ([.validateRun], .raised e)
      | .ok remote_info =>
        let revision := env.currentCommit
        let auth_token := env.authToken
        let url := "https://circleci.com/api/v1.1/project/"
          ++ remote_info.service ++ "/" ++ remote_info.organization ++ "/"
          ++ remote_info.repo_name ++ "/tree/" ++ String.mk remote_branch_name
        let req : PostRequest :=
          { url := url, authUser := auth_token, authPass := "",
            revision := revision, notify := "false", config := config_yml_string }
        let events := [Event.validateRun, Event.httpPost req]
        match env.response.jsonBody with
        | none => (events, .raised (.jsonError "response body is not valid JSON"))
        | some response_data =>
          if 400 ≤ env.response.status ∧ env.response.status < 600 then
            (events, .raised (.httpError env.response.status))
          else
            match jsonLookup response_data "build_url" with
            | .error e => (events, .raised e)
            | .ok v =>
              (events ++ [Event.printOut ("Build triggered as " ++ pyStr v)], .ok)

/-- The HTTP POST requests recorded in a trace, in order. -/
def httpRequests (es : List Event) : List PostRequest :=
  es.filterMap (fun e => match e with | .httpPost r => some r | _ => none)

/-- The lines printed to standard output in a trace, in order. -/
def printedLines (es : List Event) : List String :=
  es.filterMap (fun e => match e with | .printOut s => some s | _ => none)

def envScratch : Env :=
  { topDir := "/repo", validateExitCode := 0, configYml := "yml",
    remoteTrackingBranch := "origin/feature-x",
    remoteUrl := fun _ => "git@github.com:acme/widgets.git",
    currentCommit := "deadbeef", authToken := "tok",
    response := { status := 200,
                  jsonBody := some (.obj [("build_url", .str "https://circleci.com/gh/org/repo/123")]) } }

example : (mainRun envScratch).snd = .ok := by rfl

example : printedLines (mainRun envScratch).fst
    = ["Build triggered as https://circleci.com/gh/org/repo/123"] := by rfl

example : httpRequests (mainRun envScratch).fst
    = [{ url := "https://circleci.com/api/v1.1/project/github/acme/widgets/tree/feature-x",
         authUser := "tok", authPass := "", revision := "deadbeef",
         notify := "false", config := "yml" }] := by rfl

/-- Two strings with the same character list are equal. -/
theorem stringData_inj {s t : String} (h : s.data = t.data) : s = t := by
  cases s; cases t; exact congrArg String.mk h

/-- Rebuilding a string from its character list gives the string back. -/
theorem stringMk_data (s : String) : String.mk s.data = s := by
  cases s; rfl

/-- A successful split describes the input: the pieces flank the first
occurrence of the splitting character, and the left piece avoids it. -/
theorem splitAtFirst_eq_some {c : Char} {s l r : List Char}
    (h : splitAtFirst c s = some (l, r)) : s = l ++ c :: r ∧ c ∉ l := by
  induction s generalizing l r with
  | nil => simp [splitAtFirst] at h
  | cons x rest ih =>
    rw [splitAtFirst] at h
    by_cases hx : x = c
    · rw [if_pos hx] at h
      simp only [Option.some.injEq, Prod.mk.injEq] at h
      obtain ⟨h1, h2⟩ := h
      subst h1; subst h2; subst hx
      simp
    · rw [if_neg hx] at h
      cases hsp : splitAtFirst c rest with
      | none => rw [hsp] at h; simp at h
      | some p =>
        obtain ⟨l', r'⟩ := p
        rw [hsp] at h
        simp only [Option.some.injEq, Prod.mk.injEq] at h
        obtain ⟨h1, h2⟩ := h
        subst h2
        obtain ⟨ihl, ihr⟩ := ih hsp
        subst ihl
        constructor
        · rw [← h1]; rfl
        · rw [← h1]
          intro hmem
          rcases List.mem_cons.mp hmem with he | hm
          · exact hx he.symm
          · exact ihr hm

/-- Splitting at the first occurrence of a character finds a marked
occurrence when the part before it avoids the character. -/
theorem splitAtFirst_append {c : Char} {l : List Char} (r : List Char)
    (h : c ∉ l) : splitAtFirst c (l ++ c :: r) = some (l, r) := by
  induction l with
  | nil => simp [splitAtFirst]
  | cons x rest ih =>
    have hx : x ≠ c := fun e => h (by simp [e])
    have hrest : c ∉ rest := fun m => h (List.mem_cons_of_mem _ m)
    rw [List.cons_append, splitAtFirst, if_neg hx, ih hrest]

/-- The dollar anchor accepts exactly the empty remainder and the remainder
consisting of a single line break. -/
theorem dollarAnchor_eq_true {l : List Char} (h : dollarAnchor l = true) :
    l = [] ∨ l = ['\n'] := by
  match l with
  | [] => exact Or.inl rfl
  | [c] =>
    simp only [dollarAnchor, beq_iff_eq] at h
    exact Or.inr (by rw [h])
  | a :: b :: t => simp [dollarAnchor] at h

/-- On a suffix-closed family of positions where the rest-of-pattern test
fails, the greedy quantifier fails no matter the accumulator. -/
theorem plusAux_none {cls : Char → Bool} {k : List Char → Bool} {s : List Char}
    (h : ∀ r, r <:+ s → k r = false) : ∀ acc, plusAux cls k acc s = none := by
  induction s with
  | nil => intro acc; simp [plusAux, h [] (List.suffix_refl _)]
  | cons c rest ih =>
    intro acc
    have hrest : ∀ r, r <:+ rest → k r = false := fun r hr =>
      h r (hr.trans (List.suffix_cons c rest))
    have hcur : k (c :: rest) = false := h _ (List.suffix_refl _)
    by_cases hc : cls c = true
    · simp [plusAux, hc, ih hrest, hcur]
    · simp [plusAux, hc, hcur]

/-- In a line-break-free string that ends neither in g i nor in g i t, the
tail pattern of the URL regex fails at every position. -/
theorem matchSuffixAt_false {s : List Char} (hnl : '\n' ∉ s)
    (hgi : ¬ ['g', 'i'] <:+ s) (hgit : ¬ ['g', 'i', 't'] <:+ s) :
    ∀ r, r <:+ s → matchSuffixAt r = false := by
  intro r hr
  by_contra hne
  have ht : matchSuffixAt r = true := by
    cases hb : matchSuffixAt r with
    | false => exact absurd hb hne
    | true => rfl
  match r, hr, ht with
  | x :: g :: i :: rest, hr, ht =>
    simp only [matchSuffixAt, Bool.and_eq_true, bne_iff_ne, beq_iff_eq] at ht
    obtain ⟨⟨⟨hx, hg⟩, hi⟩, htod⟩ := ht
    subst hg; subst hi
    match rest, htod with
    | t :: rest2, htod =>
      simp only [tOptDollar, Bool.or_eq_true, Bool.and_eq_true, beq_iff_eq] at htod
      rcases htod with ⟨htt, hda⟩ | hda
      · subst htt
        rcases dollarAnchor_eq_true hda with h0 | h0
        · subst h0
          exact hgit (List.IsSuffix.trans ⟨[x], rfl⟩ hr)
        · subst h0
          exact hnl (hr.subset (by simp))
      · rcases dollarAnchor_eq_true hda with h0 | h0
        · exact absurd h0 (by simp)
        · have hteq : t = '\n' := by
            have := congrArg (fun l => l.headI) h0
            simpa using this
          subst hteq
          exact hnl (hr.subset (by simp))
    | [], htod =>
      simp only [tOptDollar, dollarAnchor] at htod
      exact hgi (List.IsSuffix.trans ⟨[x], rfl⟩ hr)

/-- The repo-name capture fails on a line-break-free input that ends neither
in g i nor in g i t. -/
theorem repoTail_none {s : List Char} (hnl : '\n' ∉ s)
    (hgi : ¬ ['g', 'i'] <:+ s) (hgit : ¬ ['g', 'i', 't'] <:+ s) :
    repoTail s = none := by
  match s with
  | [] => rfl
  | c :: rest =>
    have hall : ∀ r, r <:+ rest → matchSuffixAt r = false := fun r hr =>
      matchSuffixAt_false hnl hgi hgit r (hr.trans (List.suffix_cons c rest))
    have hcur : matchSuffixAt (c :: rest) = false :=
      matchSuffixAt_false hnl hgi hgit _ (List.suffix_refl _)
    by_cases hc : (c != '\n') = true
    · show plusMatch _ _ (c :: rest) = none
      rw [plusMatch, if_pos hc, plusAux_none hall]
    · show plusMatch _ _ (c :: rest) = none
      rw [plusMatch, if_neg hc]

/-- A greedy dot-plus run over a line-break-free capture followed by any
non-line-break character and the literals g i t succeeds and captures
exactly the part before that four-character suffix. -/
theorem plusAux_dgit {repo : List Char} (hnl : '\n' ∉ repo) {d : Char}
    (hd : d ≠ '\n') :
    ∀ acc, plusAux (fun c => c != '\n') matchSuffixAt acc
        (repo ++ [d, 'g', 'i', 't']) = some (acc.reverse ++ repo) := by
  induction repo with
  | nil =>
    intro acc
    rw [show acc.reverse ++ ([] : List Char) = acc.reverse from List.append_nil _,
      List.nil_append, plusAux,
      if_pos (show ((fun x => x != '\n') d) = true by simp [hd]),
      show plusAux (fun c => c != '\n') matchSuffixAt (d :: acc) ['g', 'i', 't']
        = none from rfl]
    have hm : matchSuffixAt (d :: ['g', 'i', 't']) = true := by
      rw [matchSuffixAt]
      simp [hd, tOptDollar, dollarAnchor]
    rw [hm, if_pos rfl]
  | cons c cs ih =>
    intro acc
    have hc : c ≠ '\n' := fun e => hnl (by simp [e])
    have hcs : '\n' ∉ cs := fun m => hnl (List.mem_cons_of_mem _ m)
    have hrec := ih hcs (c :: acc)
    rw [List.cons_append, plusAux,
      if_pos (show ((fun x => x != '\n') c) = true by simp [hc]), hrec]
    simp

/-- A greedy dot-plus run over a line-break-free capture followed by any
non-line-break character and the literals g i succeeds, with the optional t
left unmatched, and captures exactly the part before that suffix. -/
theorem plusAux_dgi {repo : List Char} (hnl : '\n' ∉ repo) {d : Char}
    (hd : d ≠ '\n') :
    ∀ acc, plusAux (fun c => c != '\n') matchSuffixAt acc
        (repo ++ [d, 'g', 'i']) = some (acc.reverse ++ repo) := by
  induction repo with
  | nil =>
    intro acc
    rw [show acc.reverse ++ ([] : List Char) = acc.reverse from List.append_nil _,
      List.nil_append, plusAux,
      if_pos (show ((fun x => x != '\n') d) = true by simp [hd]),
      show plusAux (fun c => c != '\n') matchSuffixAt (d :: acc) ['g', 'i']
        = none from rfl]
    have hm : matchSuffixAt (d :: ['g', 'i']) = true := by
      rw [matchSuffixAt]
      simp [hd, tOptDollar, dollarAnchor]
    rw [hm, if_pos rfl]
  | cons c cs ih =>
    intro acc
    have hc : c ≠ '\n' := fun e => hnl (by simp [e])
    have hcs : '\n' ∉ cs := fun m => hnl (List.mem_cons_of_mem _ m)
    have hrec := ih hcs (c :: acc)
    rw [List.cons_append, plusAux,
      if_pos (show ((fun x => x != '\n') c) = true by simp [hc]), hrec]
    simp

/-- The repo-name capture on a non-empty line-break-free name followed by a
non-line-break character and the literals g i t returns exactly the name. -/
theorem repoTail_append_dgit {repo : List Char} (hne : repo ≠ [])
    (hnl : '\n' ∉ repo) {d : Char} (hd : d ≠ '\n') :
    repoTail (repo ++ [d, 'g', 'i', 't']) = some repo := by
  match repo, hne with
  | c :: cs, _ =>
    have hc : c ≠ '\n' := fun e => hnl (by simp [e])
    have hcs : '\n' ∉ cs := fun m => hnl (List.mem_cons_of_mem _ m)
    show plusMatch _ _ ((c :: cs) ++ _) = _
    rw [List.cons_append, plusMatch,
      if_pos (show ((fun x => x != '\n') c) = true by simp [hc]),
      plusAux_dgit hcs hd [c]]
    rfl

/-- The repo-name capture on a non-empty line-break-free name followed by a
non-line-break character and the literals g i returns exactly the name. -/
theorem repoTail_append_dgi {repo : List Char} (hne : repo ≠ [])
    (hnl : '\n' ∉ repo) {d : Char} (hd : d ≠ '\n') :
    repoTail (repo ++ [d, 'g', 'i']) = some repo := by
  match repo, hne with
  | c :: cs, _ =>
    have hc : c ≠ '\n' := fun e => hnl (by simp [e])
    have hcs : '\n' ∉ cs := fun m => hnl (List.mem_cons_of_mem _ m)
    show plusMatch _ _ ((c :: cs) ++ _) = _
    rw [List.cons_append, plusMatch,
      if_pos (show ((fun x => x != '\n') c) = true by simp [hc]),
      plusAux_dgi hcs hd [c]]
    rfl

/-- A successful slash-free greedy run means the input holds no slash: the
consumed part is slash-free by construction and the leftover accepted by the
dollar anchor is empty or a line break. -/
theorem plusAux_slash_some {s : List Char} :
    ∀ acc r, plusAux (fun c => c != '/') dollarAnchor acc s = some r →
      '/' ∉ s := by
  induction s with
  | nil => intro acc r _; simp
  | cons c rest ih =>
    intro acc r h
    simp only [plusAux] at h
    by_cases hc : (c != '/') = true
    · rw [if_pos hc] at h
      have hcne : c ≠ '/' := by simpa using hc
      cases hrec : plusAux (fun c => c != '/') dollarAnchor (c :: acc) rest with
      | some r2 =>
        have : '/' ∉ rest := ih _ _ hrec
        simp [hcne, this, Ne.symm hcne]
      | none =>
        rw [hrec] at h
        by_cases hd : dollarAnchor (c :: rest) = true
        · rcases dollarAnchor_eq_true hd with h0 | h0
          · exact absurd h0 (by simp)
          · rw [h0]; simp
        · rw [if_neg hd] at h; exact absurd h (by simp)
    · rw [if_neg hc] at h
      by_cases hd : dollarAnchor (c :: rest) = true
      · rcases dollarAnchor_eq_true hd with h0 | h0
        · exact absurd h0 (by simp)
        · have : c = '\n' := by
            have := congrArg (fun l => l.headI) h0
            simpa using this
          have hcs : c = '/' := by simpa using hc
          rw [hcs] at this
          exact absurd this (by decide)
      · rw [if_neg hd] at h; exact absurd h (by simp)

/-- A successful branch-name capture means the input after the slash is
non-empty and slash-free. -/
theorem branchTail_some {s b : List Char} (h : branchTail s = some b) :
    s ≠ [] ∧ '/' ∉ s := by
  match s with
  | [] => exact absurd h (by simp [branchTail, plusMatch])
  | c :: rest =>
    rw [branchTail, plusMatch] at h
    by_cases hc : (c != '/') = true
    · rw [if_pos hc] at h
      have hcne : c ≠ '/' := by simpa using hc
      have : '/' ∉ rest := plusAux_slash_some _ _ h
      exact ⟨by simp, by simp [Ne.symm hcne, this]⟩
    · rw [if_neg hc] at h
      exact absurd h (by simp)

/-- A successful match of the remote-tracking-branch pattern exhibits the
decomposition the pattern describes: one slash between two non-empty
slash-free parts. -/
theorem branchMatch_some_decomp {s n b : List Char}
    (h : branchMatch s = some (n, b)) :
    ∃ a c : List Char, s = a ++ '/' :: c ∧ a ≠ [] ∧ c ≠ [] ∧
      '/' ∉ a ∧ '/' ∉ c := by
  rw [branchMatch] at h
  split at h
  · exact absurd h (by simp)
  · rename_i name rest heq
    by_cases hne : name.isEmpty = true
    · rw [if_pos hne] at h; exact absurd h (by simp)
    · rw [if_neg hne] at h
      cases hbt : branchTail rest with
      | none => rw [hbt] at h; exact absurd h (by simp)
      | some bb =>
        obtain ⟨hs, hnotin⟩ := splitAtFirst_eq_some heq
        obtain ⟨hr1, hr2⟩ := branchTail_some hbt
        exact ⟨name, rest, hs, fun e => hne (by simp [e]), hr1, hnotin, hr2⟩

/-- After the colon the pattern succeeds on a slash-free non-empty
organization, a slash, and any tail on which the repo-name capture
succeeds. -/
theorem hostOrgRepo_wf {org tail repo : List Char} (h1 : org ≠ [])
    (h2 : '/' ∉ org) (hrt : repoTail tail = some repo) :
    hostOrgRepo ("github.com".toList ++ ':' :: (org ++ '/' :: tail))
      = some ("github.com".toList, org, repo) := by
  have e1 : splitAtFirst ':' ("github.com".toList ++ ':' :: (org ++ '/' :: tail))
      = some ("github.com".toList, org ++ '/' :: tail) :=
    splitAtFirst_append _ (by decide)
  have e2 : splitAtFirst '/' (org ++ '/' :: tail) = some (org, tail) :=
    splitAtFirst_append _ h2
  have g1 : ("github.com".toList).isEmpty = false := rfl
  have g2 : org.isEmpty = false := by
    cases org with
    | nil => exact absurd rfl h1
    | cons a l => rfl
  simp only [hostOrgRepo, e1, e2, hrt, g1, g2, Bool.false_eq_true, if_false]

/-- The whole URL pattern succeeds on a git-at-github URL whose organization
is slash-free and non-empty and whose tail admits the repo-name capture: the
user group consumes the leading git, the hostname capture is github.com. -/
theorem urlMatch_wf {org tail repo : List Char} (h1 : org ≠ [])
    (h2 : '/' ∉ org) (hrt : repoTail tail = some repo) :
    urlMatch (['g', 'i', 't'] ++ '@' ::
        ("github.com".toList ++ ':' :: (org ++ '/' :: tail)))
      = some ("github.com".toList, org, repo) := by
  have e0 : splitAtFirst '@' (['g', 'i', 't'] ++ '@' ::
      ("github.com".toList ++ ':' :: (org ++ '/' :: tail)))
      = some (['g', 'i', 't'],
          "github.com".toList ++ ':' :: (org ++ '/' :: tail)) :=
    splitAtFirst_append _ (by decide)
  simp only [urlMatch, e0, List.isEmpty_cons, Bool.false_eq_true, if_false,
    hostOrgRepo_wf h1 h2 hrt]

/-- After a colon the pattern fails whenever the repo-name capture fails on
the tail, for any non-empty colon-free part before the colon. -/
theorem hostOrgRepo_fail {pre org tail : List Char} (hpre : ':' ∉ pre)
    (hpreNe : pre ≠ []) (h2 : '/' ∉ org) (hrt : repoTail tail = none) :
    hostOrgRepo (pre ++ ':' :: (org ++ '/' :: tail)) = none := by
  have e1 : splitAtFirst ':' (pre ++ ':' :: (org ++ '/' :: tail))
      = some (pre, org ++ '/' :: tail) := splitAtFirst_append _ hpre
  have e2 : splitAtFirst '/' (org ++ '/' :: tail) = some (org, tail) :=
    splitAtFirst_append _ h2
  have g1 : pre.isEmpty = false := by
    cases pre with
    | nil => exact absurd rfl hpreNe
    | cons a l => rfl
  by_cases g2 : org.isEmpty = true
  · simp only [hostOrgRepo, e1, e2, g1, g2, Bool.false_eq_true, if_false, if_true]
  · simp only [hostOrgRepo, e1, e2, hrt, g1, Bool.false_eq_true, if_false,
      if_neg g2]

/-- The whole URL pattern fails on a git-at-github URL whose tail rejects
the repo-name capture: both the attempt with the user group and the fallback
without it run into the failing tail. -/
theorem urlMatch_fail {org tail : List Char} (h2 : '/' ∉ org)
    (hrt : repoTail tail = none) :
    urlMatch (['g', 'i', 't'] ++ '@' ::
        ("github.com".toList ++ ':' :: (org ++ '/' :: tail))) = none := by
  have e0 : splitAtFirst '@' (['g', 'i', 't'] ++ '@' ::
      ("github.com".toList ++ ':' :: (org ++ '/' :: tail)))
      = some (['g', 'i', 't'],
          "github.com".toList ++ ':' :: (org ++ '/' :: tail)) :=
    splitAtFirst_append _ (by decide)
  have hA : hostOrgRepo ("github.com".toList ++ ':' :: (org ++ '/' :: tail))
      = none := hostOrgRepo_fail (by decide) (by decide) h2 hrt
  have hB : hostOrgRepo (['g', 'i', 't'] ++ '@' ::
      ("github.com".toList ++ ':' :: (org ++ '/' :: tail))) = none := by
    show hostOrgRepo ("git@github.com".toList ++ ':' :: (org ++ '/' :: tail))
      = none
    exact hostOrgRepo_fail (by decide) (by decide) h2 hrt
  simp only [urlMatch, e0, List.isEmpty_cons, Bool.false_eq_true, if_false,
    hA, hB]

/-- The character list of a git-at-github URL built from organization and
tail strings, in the shape the split lemmas consume. -/
theorem url_toList (org tail : String) :
    ("git@github.com:" ++ org ++ "/" ++ tail).toList
      = ['g', 'i', 't'] ++ '@' ::
          ("github.com".toList ++ ':' :: (org.toList ++ '/' :: tail.toList)) := by
  show (_ : String).data = _
  simp only [String.data_append]
  simp [String.toList, List.append_assoc]

/-- Appending the four-character git suffix to a string appends its four
characters to the character list. -/
theorem toList_append_dotgit (repo : String) :
    (repo ++ ".git").toList = repo.toList ++ ['.', 'g', 'i', 't'] := by
  show (_ : String).data = _
  simp [String.data_append, String.toList]

/-- A non-empty string has a non-empty character list. -/
theorem toList_ne_nil {s : String} (h : s ≠ "") : s.toList ≠ [] :=
  fun e => h (stringData_inj e)

/-- Rebuilding a string from its own character list gives the string. -/
theorem stringMk_toList (s : String) : String.mk s.toList = s :=
  stringMk_data s

/-- C1, counterexample: on the URL git-at-github-com colon org slash repo,
which instantiates the claim with the non-empty slash-free organization org
and repo-name repo, parsing does not succeed: it raises the parse failure,
because the source pattern requires at least an unescaped dot and the
literals g i before the end. -/
theorem c1_counterexample :
    parse_url_to_remote_info "git@github.com:org/repo"
      = .error (.parseError "Could not parse remote URL git@github.com:org/repo") := by
  rfl

/-- C1, amended: the suffix is not optional.  For every URL of the form
git-at-github-com colon org slash repo with org non-empty and slash-free and
repo non-empty, slash-free, line-break-free and ending neither in g i nor in
g i t, parsing fails with the parse failure. -/
theorem c1_amended (org repo : String) (h1 : org ≠ "") (h2 : '/' ∉ org.toList)
    (h3 : repo ≠ "") (h4 : '/' ∉ repo.toList) (h5 : '\n' ∉ repo.toList)
    (h6 : ¬ ['g', 'i'] <:+ repo.toList) (h7 : ¬ ['g', 'i', 't'] <:+ repo.toList) :
    parse_url_to_remote_info ("git@github.com:" ++ org ++ "/" ++ repo)
      = .error (.parseError ("Could not parse remote URL "
          ++ ("git@github.com:" ++ org ++ "/" ++ repo))) := by
  simp only [parse_url_to_remote_info, url_toList org repo,
    urlMatch_fail h2 (repoTail_none h5 h6 h7)]

/-- C1, witness: the amended statement applied to the organization org and
the repo-name repo. -/
theorem c1_witness :
    parse_url_to_remote_info ("git@github.com:" ++ "org" ++ "/" ++ "repo")
      = .error (.parseError ("Could not parse remote URL "
          ++ ("git@github.com:" ++ "org" ++ "/" ++ "repo"))) :=
  c1_amended "org" "repo" (by decide) (by decide) (by decide) (by decide)
    (by decide) (by decide) (by decide)

/-- C2, counterexample: with the non-empty repo-name a line-break b the URL
git-at-github-com colon org slash a line-break b dot git satisfies the
stated precondition, yet parsing raises instead of returning the record,
because the dot of the pattern does not match a line break. -/
theorem c2_counterexample :
    parse_url_to_remote_info "git@github.com:org/a\nb.git"
      = .error (.parseError "Could not parse remote URL git@github.com:org/a\nb.git") := by
  rfl

/-- C2, amended: for all SSH-style URLs git-at-github-com colon org slash
repo dot git in which org is non-empty without slash or colon and repo is
non-empty and line-break-free, parsing returns the record with service the
fixed string github, the organization org and the repo-name repo. -/
theorem c2_amended (org repo : String) (h1 : org ≠ "") (h2 : '/' ∉ org.toList)
    (h3 : ':' ∉ org.toList) (h4 : repo ≠ "") (h5 : '\n' ∉ repo.toList) :
    parse_url_to_remote_info ("git@github.com:" ++ org ++ "/" ++ repo ++ ".git")
      = .ok ⟨"github", org, repo⟩ := by
  have hs : ("git@github.com:" ++ org ++ "/" ++ repo ++ ".git")
      = ("git@github.com:" ++ org ++ "/" ++ (repo ++ ".git")) := by
    simp [String.append_assoc]
  have hu := url_toList org (repo ++ ".git")
  rw [toList_append_dotgit repo] at hu
  have hrt : repoTail (repo.toList ++ ['.', 'g', 'i', 't']) = some repo.toList :=
    repoTail_append_dgit (toList_ne_nil h4) h5 (by decide)
  rw [hs]
  simp only [parse_url_to_remote_info, hu,
    urlMatch_wf (toList_ne_nil h1) h2 hrt]
  simp [stringMk_toList]

/-- C2, witness: the amended statement applied to the organization org and
the repo-name repo. -/
theorem c2_witness :
    parse_url_to_remote_info ("git@github.com:" ++ "org" ++ "/" ++ "repo" ++ ".git")
      = .ok ⟨"github", "org", "repo"⟩ :=
  c2_amended "org" "repo" (by decide) (by decide) (by decide) (by decide)
    (by decide)

/-- C8: for every URL on which the pattern fails altogether, and for every
URL on which the pattern succeeds but the hostname capture is not exactly
github.com, parse_url_to_remote_info raises the parse failure and never
returns a record. -/
theorem c8_host_check (url : String)
    (h : urlMatch url.toList = none ∨
      ∃ host org repo, urlMatch url.toList = some (host, org, repo) ∧
        host ≠ "github.com".toList) :
    parse_url_to_remote_info url
      = .error (.parseError ("Could not parse remote URL " ++ url)) := by
  rcases h with hnone | ⟨host, org, repo, hsome, hne⟩
  · simp only [parse_url_to_remote_info, hnone]
  · simp only [parse_url_to_remote_info, hsome]
    rw [if_pos hne]

/-- C8, witness: a URL whose hostname capture is gitlab.com. -/
theorem c8_witness :
    parse_url_to_remote_info "git@gitlab.com:a/b.git"
      = .error (.parseError ("Could not parse remote URL " ++ "git@gitlab.com:a/b.git")) :=
  c8_host_check "git@gitlab.com:a/b.git"
    (Or.inr ⟨"gitlab.com".toList, "a".toList, "b".toList, by rfl, by decide⟩)

/-- C10, counterexample: the claim quantifies over every single character X,
but for X a line break the URL git-at-github-com colon org slash repo
line-break git does not parse, because the unescaped dot of the pattern does
not match a line break. -/
theorem c10_counterexample :
    parse_url_to_remote_info "git@github.com:org/repo\ngit"
      = .error (.parseError "Could not parse remote URL git@github.com:org/repo\ngit") := by
  rfl

/-- C10, amended: for every single character X other than a line break, the
URLs git-at-github-com colon org slash repo X git and the same with X gi
both parse successfully with repo-name repo, while the URL ending in org
slash repo with no such suffix is rejected. -/
theorem c10_amended (X : Char) (hX : X ≠ '\n') :
    parse_url_to_remote_info ("git@github.com:org/repo" ++ String.mk [X] ++ "git")
        = .ok ⟨"github", "org", "repo"⟩
    ∧ parse_url_to_remote_info ("git@github.com:org/repo" ++ String.mk [X] ++ "gi")
        = .ok ⟨"github", "org", "repo"⟩
    ∧ parse_url_to_remote_info "git@github.com:org/repo"
        = .error (.parseError "Could not parse remote URL git@github.com:org/repo") := by
  refine ⟨?_, ?_, by rfl⟩
  · have hshape : ("git@github.com:org/repo" ++ String.mk [X] ++ "git").toList
        = ['g', 'i', 't'] ++ '@' :: ("github.com".toList ++ ':' ::
            ("org".toList ++ '/' :: (['r', 'e', 'p', 'o'] ++ (X :: ['g', 'i', 't'])))) := rfl
    have hrt : repoTail (['r', 'e', 'p', 'o'] ++ (X :: ['g', 'i', 't']))
        = some ['r', 'e', 'p', 'o'] :=
      repoTail_append_dgit (by decide) (by decide) hX
    simp only [parse_url_to_remote_info, hshape,
      @urlMatch_wf ("org".toList) _ _ (by decide) (by decide) hrt]
    rfl
  · have hshape : ("git@github.com:org/repo" ++ String.mk [X] ++ "gi").toList
        = ['g', 'i', 't'] ++ '@' :: ("github.com".toList ++ ':' ::
            ("org".toList ++ '/' :: (['r', 'e', 'p', 'o'] ++ (X :: ['g', 'i'])))) := rfl
    have hrt : repoTail (['r', 'e', 'p', 'o'] ++ (X :: ['g', 'i']))
        = some ['r', 'e', 'p', 'o'] :=
      repoTail_append_dgi (by decide) (by decide) hX
    simp only [parse_url_to_remote_info, hshape,
      @urlMatch_wf ("org".toList) _ _ (by decide) (by decide) hrt]
    rfl

/-- C3: with the remote URL git-at-github-com colon acme slash widgets dot
git and the remote tracking branch origin slash feature-x, the run issues
exactly one HTTP POST, to the trigger URL built from the parsed service,
organization, repo name and branch, with basic auth username the token and
empty password, and the form fields revision, notify false and config the
raw config-file contents. -/
theorem c3_trigger_request (env : Env)
    (h1 : env.validateExitCode = 0)
    (h2 : env.remoteTrackingBranch = "origin/feature-x")
    (h3 : env.remoteUrl "origin" = "git@github.com:acme/widgets.git") :
    httpRequests (mainRun env).fst
      = [{ url := "https://circleci.com/api/v1.1/project/github/acme/widgets/tree/feature-x",
           authUser := env.authToken, authPass := "",
           revision := env.currentCommit, notify := "false",
           config := env.configYml }] := by
  have hb : branchMatch ("origin/feature-x").toList
      = some ("origin".toList, "feature-x".toList) := by rfl
  have hp : parse_url_to_remote_info "git@github.com:acme/widgets.git"
      = .ok ⟨"github", "acme", "widgets"⟩ := by rfl
  have hm : String.mk ("origin".toList) = "origin" := rfl
  simp only [mainRun, h1, h2, hb, hm, h3, hp]
  norm_num
  cases hj : env.response.jsonBody with
  | none => simp [httpRequests]
  | some j =>
    by_cases hs : 400 ≤ env.response.status ∧ env.response.status < 600
    · simp [hs, httpRequests]
    · cases hl : jsonLookup j "build_url" with
      | error e => simp [hs, hl, httpRequests]
      | ok v => simp [hs, hl, httpRequests]

def envC3 : Env :=
  { topDir := "/repo", validateExitCode := 0, configYml := "jobs",
    remoteTrackingBranch := "origin/feature-x",
    remoteUrl := fun _ => "git@github.com:acme/widgets.git",
    currentCommit := "abc123", authToken := "tok",
    response := { status := 200, jsonBody := none } }

/-- C3, witness: a run over a concrete environment with the remote URL and
tracking branch of the claim. -/
theorem c3_witness :
    httpRequests (mainRun envC3).fst
      = [{ url := "https://circleci.com/api/v1.1/project/github/acme/widgets/tree/feature-x",
           authUser := envC3.authToken, authPass := "",
           revision := envC3.currentCommit, notify := "false",
           config := envC3.configYml }] :=
  c3_trigger_request envC3 rfl rfl rfl

/-- C4: in every run in which the circleci validator exits non-zero, main
raises the process failure and the trace holds no HTTP request at all. -/
theorem c4_validator_gate (env : Env) (h : env.validateExitCode ≠ 0) :
    (mainRun env).snd = .raised (.processError "circleci config validate")
    ∧ httpRequests (mainRun env).fst = [] := by
  have hb : (env.validateExitCode != 0) = true := by simpa using h
  simp [mainRun, hb, httpRequests]

def envC4 : Env :=
  { topDir := "/repo", validateExitCode := 1, configYml := "jobs",
    remoteTrackingBranch := "origin/feature-x",
    remoteUrl := fun _ => "git@github.com:acme/widgets.git",
    currentCommit := "abc123", authToken := "tok",
    response := { status := 200, jsonBody := none } }

/-- C4, witness: a run whose validator exits with status one. -/
theorem c4_witness :
    (mainRun envC4).snd = .raised (.processError "circleci config validate")
    ∧ httpRequests (mainRun envC4).fst = [] :=
  c4_validator_gate envC4 (by decide)

/-- C5: whenever the validator succeeds and the remote tracking branch
string admits no decomposition into one slash between two non-empty
slash-free parts, main raises the branch parse failure, and the trace holds
no HTTP request. -/
theorem c5_branch_gate (env : Env) (h0 : env.validateExitCode = 0)
    (h : ¬ ∃ a b : String, env.remoteTrackingBranch = a ++ "/" ++ b
      ∧ a ≠ "" ∧ b ≠ "" ∧ '/' ∉ a.toList ∧ '/' ∉ b.toList) :
    (mainRun env).snd = .raised (.parseError
      ("Cannot parse remote tracking branch " ++ env.remoteTrackingBranch))
    ∧ httpRequests (mainRun env).fst = [] := by
  have hb : branchMatch env.remoteTrackingBranch.toList = none := by
    cases hbm : branchMatch env.remoteTrackingBranch.toList with
    | none => rfl
    | some p =>
      obtain ⟨n, b⟩ := p
      obtain ⟨a, c, hs, ha, hc, hna, hnc⟩ := branchMatch_some_decomp hbm
      refine absurd ?_ h
      refine ⟨String.mk a, String.mk c, ?_, ?_, ?_, hna, hnc⟩
      · refine stringData_inj ?_
        show env.remoteTrackingBranch.data = _
        rw [show env.remoteTrackingBranch.toList
            = env.remoteTrackingBranch.data from rfl] at hs
        rw [hs]
        simp [String.data_append]
      · exact fun e => ha (congrArg String.data e)
      · exact fun e => hc (congrArg String.data e)
  have hb2 : branchMatch env.remoteTrackingBranch.data = none := hb
  simp [mainRun, h0, hb, hb2, httpRequests]

def envC5 : Env :=
  { topDir := "/repo", validateExitCode := 0, configYml := "jobs",
    remoteTrackingBranch := "nobranch",
    remoteUrl := fun _ => "git@github.com:acme/widgets.git",
    currentCommit := "abc123", authToken := "tok",
    response := { status := 200, jsonBody := none } }

/-- C5, witness: a run whose remote tracking branch has no slash. -/
theorem c5_witness :
    (mainRun envC5).snd = .raised (.parseError
      ("Cannot parse remote tracking branch " ++ envC5.remoteTrackingBranch))
    ∧ httpRequests (mainRun envC5).fst = [] :=
  c5_branch_gate envC5 rfl (by
    rintro ⟨a, b, heq, ha, hb, hna, hnb⟩
    have hd : ("nobranch" : String).data = (a ++ "/" ++ b).data :=
      congrArg String.data heq
    rw [String.data_append, String.data_append] at hd
    have hmem : '/' ∈ ("nobranch" : String).data := by
      rw [hd]
      simp [String.data_append]
    exact absurd hmem (by decide))

/-- An environment whose POST is answered with the non-2xx status 304 and a
valid JSON body. -/
def envC6cx : Env :=
  { topDir := "/repo", validateExitCode := 0, configYml := "jobs",
    remoteTrackingBranch := "origin/main",
    remoteUrl := fun _ => "git@github.com:org/repo.git",
    currentCommit := "abc123", authToken := "tok",
    response :=
      { status := 304,
        jsonBody := some (.obj [("build_url", .str "https://circleci.com/gh/org/repo/123")]) } }

/-- C6, counterexample: a mocked response with the non-2xx status 304 and a
valid JSON body is not raised on by raise_for_status, which only covers 4xx
and 5xx: the run returns normally with exit status zero and prints the build
URL, against the claim that any non-2xx response leads to a raise with no
build URL printed. -/
theorem c6_counterexample :
    envC6cx.response.status = 304
    ∧ (mainRun envC6cx).snd = .ok
    ∧ exitCode (mainRun envC6cx).snd = 0
    ∧ printedLines (mainRun envC6cx).fst
        = ["Build triggered as https://circleci.com/gh/org/repo/123"] :=
  ⟨rfl, rfl, rfl, rfl⟩

/-- C6, amended: if the HTTP POST returns a 401, or more generally any 4xx
or 5xx response, the program raises, exits with the non-zero status one, and
never prints a build URL; a non-2xx status outside the 400 to 599 range,
such as 304, is not raised on. -/
theorem c6_amended (env : Env) (h4 : 400 ≤ env.response.status)
    (h5 : env.response.status < 600) :
    (∃ e, (mainRun env).snd = .raised e)
    ∧ exitCode (mainRun env).snd = 1
    ∧ printedLines (mainRun env).fst = [] := by
  by_cases hv : env.validateExitCode = 0
  · simp only [mainRun, hv]
    norm_num
    cases hbm : branchMatch env.remoteTrackingBranch.data with
    | none => simp [hbm, printedLines, exitCode]
    | some p =>
      obtain ⟨n, b⟩ := p
      cases hp : parse_url_to_remote_info (env.remoteUrl (String.mk n)) with
      | error e => simp [hbm, hp, printedLines, exitCode]
      | ok info =>
        cases hj : env.response.jsonBody with
        | none => simp [hbm, hp, hj, printedLines, exitCode]
        | some j =>
          have hst : 400 ≤ env.response.status ∧ env.response.status < 600 :=
            ⟨h4, h5⟩
          simp [hbm, hp, hj, hst, printedLines, exitCode]
  · have hb : (env.validateExitCode != 0) = true := by simpa using hv
    simp [mainRun, hb, printedLines, exitCode]

def envC6 : Env :=
  { topDir := "/repo", validateExitCode := 0, configYml := "jobs",
    remoteTrackingBranch := "origin/main",
    remoteUrl := fun _ => "git@github.com:org/repo.git",
    currentCommit := "abc123", authToken := "tok",
    response :=
      { status := 401,
        jsonBody := some (.obj [("message", .str "Permission denied")]) } }

/-- C6, witness: a run whose POST is answered with status 401. -/
theorem c6_witness :
    (∃ e, (mainRun envC6).snd = .raised e)
    ∧ exitCode (mainRun envC6).snd = 1
    ∧ printedLines (mainRun envC6).fst = [] :=
  c6_amended envC6 (by decide) (by decide)

/-- C7: in a run that reaches the HTTP call, a successful 2xx response whose
JSON body binds build_url to the given URL makes the program print exactly
the one line Build triggered as followed by that URL, return normally and
exit with status zero. -/
theorem c7_success (env : Env) {rn bn : List Char} {info : RemoteInfo}
    (h1 : env.validateExitCode = 0)
    (h2 : branchMatch env.remoteTrackingBranch.toList = some (rn, bn))
    (h3 : parse_url_to_remote_info (env.remoteUrl (String.mk rn)) = .ok info)
    (h4 : 200 ≤ env.response.status) (h5 : env.response.status < 300)
    (h6 : env.response.jsonBody
      = some (.obj [("build_url", .str "https://circleci.com/gh/org/repo/123")])) :
    printedLines (mainRun env).fst
      = ["Build triggered as https://circleci.com/gh/org/repo/123"]
    ∧ (mainRun env).snd = .ok
    ∧ exitCode (mainRun env).snd = 0 := by
  have hst : ¬ (400 ≤ env.response.status ∧ env.response.status < 600) := by
    rintro ⟨ha, _⟩
    omega
  have hl : jsonLookup (.obj [("build_url", .str "https://circleci.com/gh/org/repo/123")]) "build_url"
      = .ok (.str "https://circleci.com/gh/org/repo/123") := rfl
  simp only [mainRun, h1, h2, h3, h6]
  norm_num
  simp [hst, hl, printedLines, exitCode, pyStr]

def envC7 : Env :=
  { topDir := "/repo", validateExitCode := 0, configYml := "jobs",
    remoteTrackingBranch := "origin/main",
    remoteUrl := fun _ => "git@github.com:org/repo.git",
    currentCommit := "abc123", authToken := "tok",
    response :=
      { status := 201,
        jsonBody := some (.obj [("build_url", .str "https://circleci.com/gh/org/repo/123")]) } }

/-- C7, witness: a run whose POST is answered with status 201 and the build
URL of the claim. -/
theorem c7_witness :
    printedLines (mainRun envC7).fst
      = ["Build triggered as https://circleci.com/gh/org/repo/123"]
    ∧ (mainRun envC7).snd = .ok
    ∧ exitCode (mainRun envC7).snd = 0 :=
  c7_success envC7 rfl rfl rfl (by decide) (by decide) rfl

/-- C9: the JSON body is decoded before the status check, so in a run that
reaches the HTTP call and receives a non-2xx response whose body is not
valid JSON, the failure raised is the JSON decode failure and not the HTTP
status failure. -/
theorem c9_json_before_status (env : Env) {rn bn : List Char}
    {info : RemoteInfo}
    (h1 : env.validateExitCode = 0)
    (h2 : branchMatch env.remoteTrackingBranch.toList = some (rn, bn))
    (h3 : parse_url_to_remote_info (env.remoteUrl (String.mk rn)) = .ok info)
    (h4 : ¬ (200 ≤ env.response.status ∧ env.response.status < 300))
    (h5 : env.response.jsonBody = none) :
    (mainRun env).snd = .raised (.jsonError "response body is not valid JSON")
    ∧ ∀ st, (mainRun env).snd ≠ .raised (.httpError st) := by
  have hmain : (mainRun env).snd
      = .raised (.jsonError "response body is not valid JSON") := by
    simp only [mainRun, h1, h2, h3, h5]
    norm_num
  exact ⟨hmain, fun st hcontra => by rw [hmain] at hcontra; exact absurd hcontra (by simp)⟩

def envC9 : Env :=
  { topDir := "/repo", validateExitCode := 0, configYml := "jobs",
    remoteTrackingBranch := "origin/main",
    remoteUrl := fun _ => "git@github.com:org/repo.git",
    currentCommit := "abc123", authToken := "tok",
    response := { status := 500, jsonBody := none } }

/-- C9, witness: a run answered with status 500 and a body that is not
valid JSON. -/
theorem c9_witness :
    (mainRun envC9).snd = .raised (.jsonError "response body is not valid JSON")
    ∧ ∀ st, (mainRun envC9).snd ≠ .raised (.httpError st) :=
  c9_json_before_status envC9 rfl rfl rfl (by decide) rfl

/-- C10, witness: the amended statement applied to the character X equal to
a dot. -/
theorem c10_witness :
    parse_url_to_remote_info ("git@github.com:org/repo" ++ String.mk ['.'] ++ "git")
        = .ok ⟨"github", "org", "repo"⟩
    ∧ parse_url_to_remote_info ("git@github.com:org/repo" ++ String.mk ['.'] ++ "gi")
        = .ok ⟨"github", "org", "repo"⟩
    ∧ parse_url_to_remote_info "git@github.com:org/repo"
        = .error (.parseError "Could not parse remote URL git@github.com:org/repo") :=
  c10_amended '.' (by decide)
